import Mathlib

set_option maxRecDepth 4000

/-!
Shallow embedding of the task-based agent-proxy server of this repository
(`src/server/index.js`, the user/task variant — the second server in that
file — together with the client types in `src/src/types/index.ts` and the
Markdown exporter in `src/src/App.tsx`).

Modelling conventions:
* ISO timestamp strings produced by `new Date().toISOString()` are modelled
  by a `Nat` clock value; every `Date` read performed during one request is
  modelled by the single `now` parameter of that request's handler.
* `Date.prototype.toLocaleString` (an external locale/runtime service) is
  modelled by an explicit parameter `fmt : Nat → String` standing for the
  fixed clock/locale rendering.
* `uuid()` results are passed in as explicit fresh-identifier parameters.
* `req.body` fields that may be absent or non-textual are modelled as
  `Option String` (`none` covers both a missing field and a non-string one,
  which the code treats alike via falsiness / `typeof` checks).
* The file system of uploaded files is modelled as `String → Option String`
  (stored name to stored bytes), the store `data/store.json` as `Store`.
* Each request handler returns `Store × Except Err Out`: the store as left
  behind by the handler, and either the error status it responded with or
  its successful response payload.
-/

namespace AgentStudio

/-- `Revision{timestamp, question, highlights}` from the data model. -/
structure Revision where
  timestamp : Nat
  question : String
  highlights : String
deriving DecidableEq

/-- `ReportSection{heading, bullets}` (`Section` in the spec's data model). -/
structure ReportSection where
  heading : String
  bullets : List String
deriving DecidableEq

/-- The report artifact owned by each task. -/
structure Report where
  title : String
  executiveSummary : String
  sections : List ReportSection
  recommendations : List String
  nextSteps : List String
  lastUpdated : Nat
  revisionHistory : List Revision
deriving DecidableEq

/-- A conversation message. -/
structure Message where
  id : String
  role : String
  content : String
  createdAt : Nat
deriving DecidableEq

/-- A user-owned task: message log plus report artifact. -/
structure Task where
  id : String
  title : String
  createdAt : Nat
  updatedAt : Nat
  messages : List Message
  report : Report
deriving DecidableEq

/-- An uploaded evidence document record. -/
structure Document where
  id : String
  originalName : String
  storedName : String
  uploadedAt : Nat
  size : Nat
  status : String
  notes : String
deriving DecidableEq

/-- A user record with nested tasks and documents. -/
structure User where
  id : String
  email : String
  password : String
  name : String
  createdAt : Nat
  updatedAt : Nat
  tasks : List Task
  documents : List Document
deriving DecidableEq

/-- The whole persistent store (`data/store.json`): `{ users: [] }`. -/
structure Store where
  users : List User
deriving DecidableEq

/-- The error statuses the handlers respond with. -/
inductive Err where
  | badRequest
  | unauthorized
  | notFound
  | gone
deriving DecidableEq

/-- The task summary projection `normaliseTask` returns. -/
structure TaskSummary where
  id : String
  title : String
  createdAt : Nat
  updatedAt : Nat
  lastMessagePreview : String
deriving DecidableEq

/-- Multer's file payload `{originalname, filename, size}`. -/
structure FileInfo where
  originalname : String
  filename : String
  size : Nat
deriving DecidableEq

/-- Replace the first element satisfying `p` by its `f`-image, like the
JS pattern of `find`-ing an object in an array and mutating it in place. -/
def updateFirst (p : α → Bool) (f : α → α) : List α → List α
  | [] => []
  | x :: xs => if p x then f x :: xs else x :: updateFirst p f xs

/-- Remove the first element satisfying `p`, like `findIndex` + `splice(i, 1)`. -/
def eraseFirst (p : α → Bool) : List α → List α
  | [] => []
  | x :: xs => if p x then xs else x :: eraseFirst p xs

/-- Accumulator loop of first-occurrence deduplication: the observable
behaviour of `Array.from(new Set(list))`, which keeps the first occurrence
of each value in insertion order. -/
def dedupGo (acc : List String) : List String → List String
  | [] => acc
  | x :: xs => if x ∈ acc then dedupGo acc xs else dedupGo (acc ++ [x]) xs

/-- `Array.from(new Set(l))`: first-occurrence-preserving deduplication. -/
def jsSetDedup (l : List String) : List String := dedupGo [] l

/-- Default title: `'New Intelligence Task'`. -/
def defaultTaskTitle : String := "New Intelligence Task"

/-- `title?.trim() || 'New Intelligence Task'` — the effective (trimmed,
defaulted) title of a created task. -/
def effTitle (title : Option String) : String :=
  match title with
  | some t => if t.trim == "" then defaultTaskTitle else t.trim
  | none => defaultTaskTitle

/-- `createDefaultReport(title)` from src/server/index.js. -/
def createDefaultReport (title : String) (now : Nat) : Report :=
  { title := title ++ " — Intelligence Brief"
    executiveSummary := "Collaborate with the Databricks reporting agent to iteratively craft this deliverable. Upload supporting evidence, ask clarifying questions, and let the workspace synthesise the findings."
    sections := []
    recommendations := []
    nextSteps :=
      [ "Review uploaded documents for data quality and completeness."
      , "Align the insights with stakeholder objectives."
      , "Schedule a read-out once the report reaches publication quality." ]
    lastUpdated := now
    revisionHistory := [] }

/-- `synthesiseInsights(prompt, context)` from src/server/index.js. -/
def synthesiseInsights (prompt : String) (context : List Document) : List String :=
  [ "Focused analysis on: " ++ prompt ++ "."
  , "Databricks proxy orchestrated Lakehouse assets and ML-driven reasoning to propose the next best actions."
  , if context.length ≠ 0 then
      "Referenced " ++ toString context.length ++ " uploaded artefact" ++
        (if context.length == 1 then "" else "s") ++ " during synthesis."
    else
      "Upload relevant evidence to sharpen future iterations." ]

/-- `buildSectionFromPrompt(prompt, documents)` from src/server/index.js.
JS `slice(0, 60)` over code units is modelled by `String.take` over scalars. -/
def buildSectionFromPrompt (prompt : String) (documents : List Document) : ReportSection :=
  { heading := "Insights for " ++ prompt.take 60 ++ (if prompt.length > 60 then "…" else "")
    bullets :=
      [ "Context: " ++ prompt ++ "."
      , if documents.length ≠ 0 then
          "Supporting evidence: " ++
            String.intercalate ", " (documents.map Document.originalName) ++ "."
        else
          "Supporting evidence: none supplied yet."
      , "Opportunities: Leverage Databricks Lakehouse intelligence to surface cross-domain correlations."
      , "Risks: Ensure governance, lineage, and model monitoring before automation." ] }

/-- First templated recommendation string of `updateReport`. -/
def recDeepDive (prompt : String) : String :=
  "Deep dive into " ++ prompt ++ " using Databricks SQL, dashboards, and collaborative notebooks."

/-- Second (constant) recommendation string of `updateReport`. -/
def recAlign : String :=
  "Align with executive sponsors on measurable success metrics."

/-- Templated next-step string of `updateReport`. -/
def stepOperationalise (prompt : String) : String :=
  "Schedule a working session to operationalise insights regarding " ++ prompt ++ "."

/-- Highlights string of the revision entry `updateReport` prepends. -/
def revisionHighlights (prompt : String) : String :=
  "Agent expanded report with focus on " ++ prompt ++ "."

/-- `updateReport(report, prompt, documents)` from src/server/index.js. -/
def updateReport (fmt : Nat → String) (report : Report) (prompt : String)
    (documents : List Document) (now : Nat) : Report :=
  { report with
    executiveSummary :=
      report.executiveSummary ++ "\n\nLatest highlight (" ++ fmt now ++ "): " ++ prompt ++ "."
    sections := report.sections ++ [buildSectionFromPrompt prompt documents]
    recommendations :=
      jsSetDedup (report.recommendations ++ [recDeepDive prompt, recAlign])
    nextSteps :=
      jsSetDedup (report.nextSteps ++ [stepOperationalise prompt])
    lastUpdated := now
    revisionHistory :=
      { timestamp := now, question := prompt, highlights := revisionHighlights prompt }
        :: report.revisionHistory }

/-- `findUser(store, userId)` from src/server/index.js. -/
def findUser (s : Store) (userId : String) : Option User :=
  s.users.find? (fun u => u.id == userId)

/-- `resolveUser`: token absent or unknown is `Unauthorized`; otherwise the
user record. The token is the `x-user-id` header / `userId` query value. -/
def resolveUser (s : Store) (token : Option String) : Except Err User :=
  match token with
  | none => .error .unauthorized
  | some userId =>
    match findUser s userId with
    | none => .error .unauthorized
    | some u => .ok u

/-- Apply `f` to the (first) user with id `uid` inside the store. -/
def updateUser (s : Store) (uid : String) (f : User → User) : Store :=
  { users := updateFirst (fun u => u.id == uid) f s.users }

/-- `normaliseTask(task)` from src/server/index.js
(`messages.at(-1)?.content ?? ''`). -/
def normaliseTask (t : Task) : TaskSummary :=
  { id := t.id
    title := t.title
    createdAt := t.createdAt
    updatedAt := t.updatedAt
    lastMessagePreview := ((t.messages.getLast?).map Message.content).getD "" }

/-- `email.split('@')[0]` — the local part of an email address. -/
def localPart (email : String) : String := (email.splitOn "@").headD email

/-- `POST /api/auth/login` from src/server/index.js. Returns the token
(`user.id`). `none` models a missing field; the code also rejects empty
strings through falsiness. -/
def login (s : Store) (email password name : Option String) (freshId : String)
    (now : Nat) : Store × Except Err String :=
  match email, password with
  | some em, some pw =>
    if em == "" || pw == "" then (s, .error .badRequest)
    else
      match s.users.find? (fun u => u.email.toLower == em.toLower) with
      | none =>
        let user : User :=
          { id := freshId
            email := em
            password := pw
            name := match name with
              | some n => if n.trim == "" then localPart em else n.trim
              | none => localPart em
            createdAt := now
            updatedAt := now
            tasks := []
            documents := [] }
        ({ users := s.users ++ [user] }, .ok user.id)
      | some u =>
        if u.password == pw then (s, .ok u.id) else (s, .error .unauthorized)
  | _, _ => (s, .error .badRequest)

/-- `POST /api/tasks` from src/server/index.js. -/
def createTask (s : Store) (token : Option String) (title : Option String)
    (freshId : String) (now : Nat) : Store × Except Err Task :=
  match resolveUser s token with
  | .error e => (s, .error e)
  | .ok u =>
    let task : Task :=
      { id := freshId
        title := effTitle title
        createdAt := now
        updatedAt := now
        messages := []
        report := createDefaultReport (effTitle title) now }
    (updateUser s u.id (fun u0 => { u0 with tasks := u0.tasks ++ [task], updatedAt := now }),
     .ok task)

/-- `PATCH /api/tasks/:id` from src/server/index.js: rename, a no-op unless
the title is a string with non-empty trim. -/
def renameTask (s : Store) (token : Option String) (taskId : String)
    (title : Option String) (now : Nat) : Store × Except Err TaskSummary :=
  match resolveUser s token with
  | .error e => (s, .error e)
  | .ok u =>
    match u.tasks.find? (fun t => t.id == taskId) with
    | none => (s, .error .notFound)
    | some t =>
      match title with
      | some ttl =>
        if ttl.trim == "" then (s, .ok (normaliseTask t))
        else
          (updateUser s u.id (fun u0 =>
            { u0 with
              updatedAt := now
              tasks := updateFirst (fun x => x.id == taskId)
                (fun x => { x with title := ttl.trim, updatedAt := now }) u0.tasks }),
           .ok (normaliseTask { t with title := ttl.trim, updatedAt := now }))
      | none => (s, .ok (normaliseTask t))

/-- `DELETE /api/tasks/:id` from src/server/index.js. -/
def deleteTask (s : Store) (token : Option String) (taskId : String)
    (now : Nat) : Store × Except Err Unit :=
  match resolveUser s token with
  | .error e => (s, .error e)
  | .ok u =>
    match u.tasks.find? (fun t => t.id == taskId) with
    | none => (s, .error .notFound)
    | some _ =>
      (updateUser s u.id (fun u0 =>
        { u0 with tasks := eraseFirst (fun t => t.id == taskId) u0.tasks, updatedAt := now }),
       .ok ())

/-- Content of the agent acknowledgement message of an invoke. -/
def agentContent (prompt : String) : String :=
  "The Databricks proxy analysed your question \"" ++ prompt ++
    "\" using the orchestrated ingestion pipeline and refreshed the report with a new section."

/-- The response payload of a successful invoke. -/
structure InvokeOut where
  message : Message
  report : Report
  insights : List String
deriving DecidableEq

/-- `POST /api/tasks/:id/invoke` from src/server/index.js: validates the
prompt after resolving user and task, appends the user message, rewrites the
report through `updateReport` (over the currently `processed` documents),
appends the agent message and touches the `updatedAt` stamps. -/
def invoke (s : Store) (token : Option String) (taskId : String)
    (prompt : Option String) (fmt : Nat → String) (mid1 mid2 : String)
    (now : Nat) : Store × Except Err InvokeOut :=
  match resolveUser s token with
  | .error e => (s, .error e)
  | .ok u =>
    match u.tasks.find? (fun t => t.id == taskId) with
    | none => (s, .error .notFound)
    | some t =>
      match prompt with
      | none => (s, .error .badRequest)
      | some p =>
        if p == "" then (s, .error .badRequest)
        else
          let userMessage : Message := { id := mid1, role := "user", content := p, createdAt := now }
          let documents := u.documents.filter (fun d => d.status == "processed")
          let report := updateReport fmt t.report p documents now
          let agentMessage : Message :=
            { id := mid2, role := "agent", content := agentContent p, createdAt := now }
          (updateUser s u.id (fun u0 =>
            { u0 with
              updatedAt := now
              tasks := updateFirst (fun x => x.id == taskId)
                (fun x =>
                  { x with
                    messages := x.messages ++ [userMessage, agentMessage]
                    report := report
                    updatedAt := now }) u0.tasks }),
           .ok { message := agentMessage, report := report
                 insights := synthesiseInsights p documents })

/-- Caller-supplied body of `PUT /api/tasks/:id/report`: each report field
may or may not be present (`{...task.report, ...req.body}` shallow merge). -/
structure ReportPatch where
  title : Option String := none
  executiveSummary : Option String := none
  sections : Option (List ReportSection) := none
  recommendations : Option (List String) := none
  nextSteps : Option (List String) := none
  lastUpdated : Option Nat := none
  revisionHistory : Option (List Revision) := none
deriving DecidableEq

/-- The shallow merge `{...task.report, ...req.body, lastUpdated: now}`. -/
def mergeReport (r : Report) (p : ReportPatch) (now : Nat) : Report :=
  { title := p.title.getD r.title
    executiveSummary := p.executiveSummary.getD r.executiveSummary
    sections := p.sections.getD r.sections
    recommendations := p.recommendations.getD r.recommendations
    nextSteps := p.nextSteps.getD r.nextSteps
    lastUpdated := now
    revisionHistory := p.revisionHistory.getD r.revisionHistory }

/-- `PUT /api/tasks/:id/report` from src/server/index.js. -/
def replaceReport (s : Store) (token : Option String) (taskId : String)
    (patch : ReportPatch) (now : Nat) : Store × Except Err Report :=
  match resolveUser s token with
  | .error e => (s, .error e)
  | .ok u =>
    match u.tasks.find? (fun t => t.id == taskId) with
    | none => (s, .error .notFound)
    | some t =>
      (updateUser s u.id (fun u0 =>
        { u0 with
          updatedAt := now
          tasks := updateFirst (fun x => x.id == taskId)
            (fun x => { x with report := mergeReport x.report patch now, updatedAt := now })
            u0.tasks }),
       .ok (mergeReport t.report patch now))

/-- Note attached to a freshly uploaded document. -/
def queuedNote : String := "Queued for simulated Databricks ingestion agent."

/-- Note attached once the simulated ingestion has run. -/
def processedNote : String :=
  "Processed by simulated ingestion agent. Available for downstream reasoning."

/-- `POST /api/documents` from src/server/index.js (the synchronous part:
record creation and persistence; the delayed flip is `flipDocument`). -/
def uploadDocument (s : Store) (token : Option String) (file : Option FileInfo)
    (freshId : String) (now : Nat) : Store × Except Err Document :=
  match resolveUser s token with
  | .error e => (s, .error e)
  | .ok u =>
    match file with
    | none => (s, .error .badRequest)
    | some f =>
      let d : Document :=
        { id := freshId
          originalName := f.originalname
          storedName := f.filename
          uploadedAt := now
          size := f.size
          status := "processing"
          notes := queuedNote }
      (updateUser s u.id (fun u0 =>
        { u0 with documents := u0.documents ++ [d], updatedAt := now }),
       .ok d)

/-- The `setTimeout` body scheduled by the upload handler: re-read the
store, look the user and document up again, and mark the document
`processed` when it is still there; a no-op otherwise. -/
def flipDocument (s : Store) (uid did : String) : Store :=
  match findUser s uid with
  | none => s
  | some u =>
    match u.documents.find? (fun d => d.id == did) with
    | none => s
    | some _ =>
      updateUser s uid (fun u0 =>
        { u0 with
          documents := updateFirst (fun d => d.id == did)
            (fun d => { d with status := "processed", notes := processedNote })
            u0.documents })

/-- `GET /api/documents/:id/download` from src/server/index.js. `fs` maps a
stored file name to its bytes when the file exists in the upload directory.
On success the stored bytes are returned together with the document's
original file name (the `Content-Disposition` attachment name). -/
def downloadDocument (s : Store) (token : Option String) (did : String)
    (fs : String → Option String) : Store × Except Err (String × String) :=
  match resolveUser s token with
  | .error e => (s, .error e)
  | .ok u =>
    match u.documents.find? (fun d => d.id == did) with
    | none => (s, .error .notFound)
    | some d =>
      match fs d.storedName with
      | none => (s, .error .gone)
      | some bytes => (s, .ok (d.originalName, bytes))

/-- One mutating request of the service (read-only requests do not change
the store). Fresh identifiers and message ids are carried in the operation. -/
inductive Op where
  | login (email password name : Option String) (freshId : String)
  | createTask (token title : Option String) (freshId : String)
  | renameTask (token : Option String) (taskId : String) (title : Option String)
  | deleteTask (token : Option String) (taskId : String)
  | invoke (token : Option String) (taskId : String) (prompt : Option String) (mid1 mid2 : String)
  | replaceReport (token : Option String) (taskId : String) (patch : ReportPatch)
  | upload (token : Option String) (file : Option FileInfo) (freshId : String)
  | flip (userId docId : String)
deriving DecidableEq

/-- Whether an operation is the unvalidated report replace. -/
def Op.isReplace : Op → Bool
  | .replaceReport _ _ _ => true
  | _ => false

/-- The store left behind by one operation executed at clock value `now`. -/
def Op.apply (fmt : Nat → String) (o : Op) (now : Nat) (s : Store) : Store :=
  match o with
  | .login e p n fid => (AgentStudio.login s e p n fid now).1
  | .createTask tok ttl fid => (AgentStudio.createTask s tok ttl fid now).1
  | .renameTask tok tid ttl => (AgentStudio.renameTask s tok tid ttl now).1
  | .deleteTask tok tid => (AgentStudio.deleteTask s tok tid now).1
  | .invoke tok tid p m1 m2 => (AgentStudio.invoke s tok tid p fmt m1 m2 now).1
  | .replaceReport tok tid patch => (AgentStudio.replaceReport s tok tid patch now).1
  | .upload tok f fid => (AgentStudio.uploadDocument s tok f fid now).1
  | .flip uid did => flipDocument s uid did

/-- The initial store: `{ users: [] }`. -/
def emptyStore : Store := { users := [] }

/-- Run a timed sequence of operations from a store. -/
def run (fmt : Nat → String) (s : Store) : List (Op × Nat) → Store
  | [] => s
  | (o, t) :: rest => run fmt (o.apply fmt t s) rest

/-- The clock values of a timed operation sequence are strictly increasing
and bounded below by `b`. -/
def timedFrom (b : Nat) : List (Op × Nat) → Bool
  | [] => true
  | (_, t) :: rest => b ≤ t && timedFrom (t + 1) rest

/-- No document of the store carries status `failed` (in fact every status
is `processing` or `processed`). -/
def statusOk (s : Store) : Prop :=
  ∀ u ∈ s.users, ∀ d ∈ u.documents, d.status = "processing" ∨ d.status = "processed"

/-- Newest-first order on revisions: the right one is strictly older. -/
def revNewer (a b : Revision) : Prop := b.timestamp < a.timestamp

/-- Every task's revision history is strictly newest-first and wholly older
than the clock bound `b`. -/
def revInv (b : Nat) (s : Store) : Prop :=
  ∀ u ∈ s.users, ∀ tk ∈ u.tasks,
    List.Chain' revNewer tk.report.revisionHistory ∧
      ∀ r ∈ tk.report.revisionHistory, r.timestamp < b

/-! ### Markdown export (`downloadMarkdown` in `src/src/App.tsx`)

The string assembled by the client-side exporter. `fmt` models the fixed
clock/locale rendering `new Date(x).toLocaleString()`. -/

/-- The Markdown text `downloadMarkdown` builds from a report, translated
expression by expression from `src/src/App.tsx`. -/
def downloadMarkdownText (fmt : Nat → String) (r : Report) : String :=
  let sections := String.intercalate "\n\n"
    (r.sections.map (fun s =>
      "## " ++ s.heading ++ "\n" ++
        String.intercalate "\n" (s.bullets.map (fun b => "- " ++ b))))
  let recommendations := String.intercalate "\n" (r.recommendations.map (fun l => "- " ++ l))
  let steps := String.intercalate "\n"
    ((r.nextSteps.enum).map (fun p => toString (p.1 + 1) ++ ". " ++ p.2))
  let revisions := String.intercalate "\n"
    (r.revisionHistory.map (fun e => "- " ++ fmt e.timestamp ++ ": " ++ e.highlights))
  "# " ++ r.title ++ "\n\n**Last Updated:** " ++ fmt r.lastUpdated ++
    "\n\n## Executive Summary\n" ++ r.executiveSummary ++ "\n\n" ++ sections ++
    "\n\n## Recommendations\n" ++ recommendations ++ "\n\n## Next Steps\n" ++ steps ++
    "\n\n## Revision History\n" ++ revisions

/-- Join a list of Markdown blocks with blank lines between them. -/
def joinBlocks : List String → String
  | [] => ""
  | [b] => b
  | b :: bs => b ++ "\n\n" ++ joinBlocks bs

/-- Modelled from the spec's template description (§4.5): the export is the
fixed sequence of blocks — title header, last-updated line, executive
summary, each section as a subheading with a bullet list, recommendations as
a bullet list, next steps as a numbered list, revision history as bullets of
timestamp and highlights — joined by blank lines. Stated independently of
the source expression to compare the two. -/
def markdownTemplateSpec (fmt : Nat → String) (r : Report) : String :=
  joinBlocks
    [ "# " ++ r.title
    , "**Last Updated:** " ++ fmt r.lastUpdated
    , "## Executive Summary\n" ++ r.executiveSummary
    , String.intercalate "\n\n"
        (r.sections.map (fun s =>
          "## " ++ s.heading ++ "\n" ++
            String.intercalate "\n" (s.bullets.map (fun b => "- " ++ b))))
    , "## Recommendations\n" ++
        String.intercalate "\n" (r.recommendations.map (fun l => "- " ++ l))
    , "## Next Steps\n" ++
        String.intercalate "\n"
          ((r.nextSteps.enum).map (fun p => toString (p.1 + 1) ++ ". " ++ p.2))
    , "## Revision History\n" ++
        String.intercalate "\n"
          (r.revisionHistory.map (fun e => "- " ++ fmt e.timestamp ++ ": " ++ e.highlights)) ]

/-! ### Concrete fixtures used by witnesses and counterexamples -/

/-- A concrete stand-in for the fixed clock/locale rendering. -/
def fmt0 : Nat → String := fun n => toString n

/-- Placeholder revision used as a `headD` default. -/
def dummyRevision : Revision := { timestamp := 0, question := "", highlights := "" }

/-- Placeholder task used as a `headD` default. -/
def dummyTask : Task :=
  { id := "", title := "", createdAt := 0, updatedAt := 0, messages := []
    report := createDefaultReport "" 0 }

/-- Placeholder user used as a `headD` default. -/
def dummyUser : User :=
  { id := "", email := "", password := "", name := "", createdAt := 0, updatedAt := 0
    tasks := [], documents := [] }

/-- A concrete processed document. -/
def fixtureDoc : Document :=
  { id := "d1", originalName := "notes.txt", storedName := "st1", uploadedAt := 0
    size := 3, status := "processed", notes := processedNote }

/-- A concrete freshly created task. -/
def fixtureTask : Task :=
  { id := "t1", title := "T", createdAt := 0, updatedAt := 0, messages := []
    report := createDefaultReport "T" 0 }

/-- A concrete user owning `fixtureTask` and `fixtureDoc`. -/
def fixtureUser : User :=
  { id := "u1", email := "ana@example.com", password := "pw", name := "ana"
    createdAt := 0, updatedAt := 0, tasks := [fixtureTask], documents := [fixtureDoc] }

/-- A concrete one-user store. -/
def fixtureStore : Store := { users := [fixtureUser] }

/-- A report whose `nextSteps` list contains a repeated entry (reachable
through the unvalidated report replace). -/
def dupReport : Report :=
  { title := "", executiveSummary := "", sections := [], recommendations := []
    nextSteps := ["x", "x", "x"], lastUpdated := 0, revisionHistory := [] }

/-- A timed trace without report replace: login, create, two invokes. -/
def c3GoodOps : List (Op × Nat) :=
  [ (.login (some "ana@example.com") (some "pw") none "u1", 0)
  , (.createTask (some "u1") none "t1", 1)
  , (.invoke (some "u1") "t1" (some "p") "m1" "m2", 2)
  , (.invoke (some "u1") "t1" (some "q") "m3" "m4", 3) ]

/-- The report of the traced task after the first invoke. -/
def c3Report2 : Report :=
  updateReport fmt0 (createDefaultReport defaultTaskTitle 1) "p" [] 2

/-- The report of the traced task after the second invoke. -/
def c3Report3 : Report := updateReport fmt0 c3Report2 "q" [] 3

/-- The traced task at the end of `c3GoodOps`. -/
def c3Task3 : Task :=
  { id := "t1", title := defaultTaskTitle, createdAt := 1, updatedAt := 3
    messages :=
      [ { id := "m1", role := "user", content := "p", createdAt := 2 }
      , { id := "m2", role := "agent", content := agentContent "p", createdAt := 2 }
      , { id := "m3", role := "user", content := "q", createdAt := 3 }
      , { id := "m4", role := "agent", content := agentContent "q", createdAt := 3 } ]
    report := c3Report3 }

/-- The traced user at the end of `c3GoodOps`. -/
def c3FinalUser : User :=
  { id := "u1", email := "ana@example.com", password := "pw"
    name := localPart "ana@example.com", createdAt := 0, updatedAt := 3
    tasks := [c3Task3], documents := [] }

/-- A report-replace payload whose `revisionHistory` is oldest-first. -/
def c3CexPatch : ReportPatch :=
  { revisionHistory := some
      [ { timestamp := 5, question := "q1", highlights := "h1" }
      , { timestamp := 9, question := "q2", highlights := "h2" } ] }

/-- A timed trace that ends in a report replace installing an oldest-first
revision history. -/
def c3CexOps : List (Op × Nat) :=
  [ (.login (some "ana@example.com") (some "pw") none "u1", 0)
  , (.createTask (some "u1") none "t1", 1)
  , (.replaceReport (some "u1") "t1" c3CexPatch, 2) ]

/-- The traced task at the end of `c3CexOps`. -/
def c3CexTask : Task :=
  { id := "t1", title := defaultTaskTitle, createdAt := 1, updatedAt := 2
    messages := []
    report := mergeReport (createDefaultReport defaultTaskTitle 1) c3CexPatch 2 }

/-- The traced user at the end of `c3CexOps`. -/
def c3CexUser : User :=
  { id := "u1", email := "ana@example.com", password := "pw"
    name := localPart "ana@example.com", createdAt := 0, updatedAt := 2
    tasks := [c3CexTask], documents := [] }

/-! ### Helper lemmas -/

theorem updateFirst_find? {p : α → Bool} {f : α → α} {l : List α} {x : α}
    (h : l.find? p = some x) (hf : p (f x) = true) :
    (updateFirst p f l).find? p = some (f x) := by
  induction l with
  | nil => simp at h
  | cons a l ih =>
    by_cases hpa : p a
    · rw [List.find?_cons_of_pos _ hpa] at h
      injection h with h
      subst h
      simp [updateFirst, hpa, List.find?_cons_of_pos _ hf]
    · rw [List.find?_cons_of_neg _ hpa] at h
      simp only [updateFirst, if_neg hpa]
      rw [List.find?_cons_of_neg _ hpa]
      exact ih h

theorem mem_updateFirst {p : α → Bool} {f : α → α} {l : List α} {x : α}
    (h : x ∈ updateFirst p f l) : x ∈ l ∨ ∃ y ∈ l, x = f y := by
  induction l with
  | nil => simp [updateFirst] at h
  | cons a l ih =>
    simp only [updateFirst] at h
    by_cases hpa : p a
    · rw [if_pos hpa] at h
      rcases List.mem_cons.mp h with h | h
      · exact Or.inr ⟨a, List.mem_cons_self a l, h⟩
      · exact Or.inl (List.mem_cons_of_mem _ h)
    · rw [if_neg hpa] at h
      rcases List.mem_cons.mp h with h | h
      · exact Or.inl (h ▸ List.mem_cons_self a l)
      · rcases ih h with h | ⟨y, hy, hxy⟩
        · exact Or.inl (List.mem_cons_of_mem _ h)
        · exact Or.inr ⟨y, List.mem_cons_of_mem _ hy, hxy⟩

theorem mem_updateFirst_of_neg {p : α → Bool} {f : α → α} {l : List α} {x : α}
    (hx : x ∈ l) (hpx : p x = false) : x ∈ updateFirst p f l := by
  induction l with
  | nil => simp at hx
  | cons a l ih =>
    simp only [updateFirst]
    rcases List.mem_cons.mp hx with rfl | hx
    · rw [if_neg (by simp [hpx])]
      exact List.mem_cons.mpr (Or.inl rfl)
    · by_cases hpa : p a
      · rw [if_pos hpa]
        exact List.mem_cons_of_mem _ hx
      · rw [if_neg hpa]
        exact List.mem_cons_of_mem _ (ih hx)

theorem mem_eraseFirst {p : α → Bool} {l : List α} {x : α}
    (h : x ∈ eraseFirst p l) : x ∈ l := by
  induction l with
  | nil => simp [eraseFirst] at h
  | cons a l ih =>
    simp only [eraseFirst] at h
    by_cases hpa : p a
    · rw [if_pos hpa] at h
      exact List.mem_cons_of_mem _ h
    · rw [if_neg hpa] at h
      rcases List.mem_cons.mp h with rfl | h
      · exact List.mem_cons_self x l
      · exact List.mem_cons_of_mem _ (ih h)

theorem find?_append_of_none {p : α → Bool} {l1 l2 : List α}
    (h : l1.find? p = none) : (l1 ++ l2).find? p = l2.find? p := by
  induction l1 with
  | nil => simp
  | cons a l ih =>
    by_cases hpa : p a
    · rw [List.find?_cons_of_pos _ hpa] at h
      exact absurd h (by simp)
    · rw [List.find?_cons_of_neg _ hpa] at h
      rw [List.cons_append, List.find?_cons_of_neg _ hpa]
      exact ih h

theorem dedupGo_extends (acc l : List String) :
    ∃ rest, dedupGo acc l = acc ++ rest := by
  induction l generalizing acc with
  | nil => exact ⟨[], by simp [dedupGo]⟩
  | cons x xs ih =>
    by_cases hx : x ∈ acc
    · simpa [dedupGo, hx] using ih acc
    · rcases ih (acc ++ [x]) with ⟨r, hr⟩
      exact ⟨[x] ++ r, by simp [dedupGo, hx, hr]⟩

theorem mem_dedupGo {y : String} (acc l : List String) :
    y ∈ dedupGo acc l ↔ y ∈ acc ∨ y ∈ l := by
  induction l generalizing acc with
  | nil => simp [dedupGo]
  | cons x xs ih =>
    by_cases hx : x ∈ acc
    · rw [show dedupGo acc (x :: xs) = dedupGo acc xs from by simp [dedupGo, hx], ih]
      constructor
      · rintro (h | h)
        · exact Or.inl h
        · exact Or.inr (List.mem_cons_of_mem _ h)
      · rintro (h | h)
        · exact Or.inl h
        · rcases List.mem_cons.mp h with rfl | h
          · exact Or.inl hx
          · exact Or.inr h
    · rw [show dedupGo acc (x :: xs) = dedupGo (acc ++ [x]) xs from by simp [dedupGo, hx], ih]
      constructor
      · rintro (h | h)
        · rcases List.mem_append.mp h with h | h
          · exact Or.inl h
          · simp at h
            exact Or.inr (h ▸ List.mem_cons_self x xs)
        · exact Or.inr (List.mem_cons_of_mem _ h)
      · rintro (h | h)
        · exact Or.inl (List.mem_append.mpr (Or.inl h))
        · rcases List.mem_cons.mp h with rfl | h
          · exact Or.inl (List.mem_append.mpr (Or.inr (by simp)))
          · exact Or.inr h

theorem dedupGo_nodup (acc l : List String) (h : acc.Nodup) :
    (dedupGo acc l).Nodup := by
  induction l generalizing acc with
  | nil => simpa [dedupGo]
  | cons x xs ih =>
    by_cases hx : x ∈ acc
    · simpa [dedupGo, hx] using ih acc h
    · have hnd : (acc ++ [x]).Nodup := by
        rw [List.nodup_append]
        refine ⟨h, List.nodup_singleton x, ?_⟩
        intro a ha hax
        simp only [List.mem_singleton] at hax
        exact hx (hax ▸ ha)
      simpa [dedupGo, hx] using ih _ hnd

theorem dedupGo_eq_acc (acc l : List String) (h : ∀ x ∈ l, x ∈ acc) :
    dedupGo acc l = acc := by
  induction l generalizing acc with
  | nil => simp [dedupGo]
  | cons x xs ih =>
    have hx : x ∈ acc := h x (List.mem_cons_self x xs)
    simp only [dedupGo, if_pos hx]
    exact ih acc (fun y hy => h y (List.mem_cons_of_mem _ hy))

theorem dedupGo_append (acc l m : List String) :
    dedupGo acc (l ++ m) = dedupGo (dedupGo acc l) m := by
  induction l generalizing acc with
  | nil => simp [dedupGo]
  | cons x xs ih =>
    by_cases hx : x ∈ acc <;> simp [dedupGo, hx, ih]

theorem dedupGo_of_disjoint (acc l : List String) (hl : l.Nodup)
    (hd : ∀ x ∈ l, x ∉ acc) : dedupGo acc l = acc ++ l := by
  induction l generalizing acc with
  | nil => simp [dedupGo]
  | cons x xs ih =>
    rcases List.nodup_cons.mp hl with ⟨hxx, hxs⟩
    have hx : x ∉ acc := hd x (List.mem_cons_self x xs)
    simp only [dedupGo, if_neg hx]
    rw [ih (acc ++ [x]) hxs]
    · simp
    · intro y hy hmem
      rcases List.mem_append.mp hmem with hmem | hmem
      · exact hd y (List.mem_cons_of_mem _ hy) hmem
      · simp only [List.mem_singleton] at hmem
        exact hxx (hmem ▸ hy)

theorem jsSetDedup_eq_self {l : List String} (h : l.Nodup) : jsSetDedup l = l := by
  simpa [jsSetDedup] using dedupGo_of_disjoint [] l h (by simp)

theorem jsSetDedup_nodup (l : List String) : (jsSetDedup l).Nodup :=
  dedupGo_nodup [] l List.nodup_nil

theorem mem_jsSetDedup {y : String} (l : List String) :
    y ∈ jsSetDedup l ↔ y ∈ l := by
  simpa [jsSetDedup] using mem_dedupGo (y := y) [] l

theorem chain_head_newest {r0 : Revision} {rest : List Revision}
    (h : List.Chain' revNewer (r0 :: rest)) :
    ∀ r ∈ rest, r.timestamp < r0.timestamp := by
  induction rest generalizing r0 with
  | nil => simp
  | cons r1 rest ih =>
    intro r hr
    rcases List.chain'_cons.mp h with ⟨h01, h1⟩
    rcases List.mem_cons.mp hr with rfl | hr
    · exact h01
    · exact lt_trans (ih h1 r hr) h01

/-! ### Claim theorems -/

/-- Claim C4: for every task created with effective (trimmed, defaulted)
title `T`, the fresh report satisfies `report.title = "T — Intelligence
Brief"`, empty `sections`, `recommendations` and `revisionHistory`, the
fixed boilerplate executive summary and exactly the three fixed boilerplate
next steps, in order. -/
theorem c4_create_task_default_report (s : Store) (uid : String) (title : Option String)
    (fid : String) (now : Nat) (u : User) (hu : findUser s uid = some u) :
    ∃ tk : Task,
      (createTask s (some uid) title fid now).2 = .ok tk ∧
      tk.title = effTitle title ∧
      tk.report.title = effTitle title ++ " — Intelligence Brief" ∧
      tk.report.sections = [] ∧
      tk.report.recommendations = [] ∧
      tk.report.revisionHistory = [] ∧
      tk.report.executiveSummary = "Collaborate with the Databricks reporting agent to iteratively craft this deliverable. Upload supporting evidence, ask clarifying questions, and let the workspace synthesise the findings." ∧
      tk.report.nextSteps =
        [ "Review uploaded documents for data quality and completeness."
        , "Align the insights with stakeholder objectives."
        , "Schedule a read-out once the report reaches publication quality." ] ∧
      tk.report.lastUpdated = now := by
  refine ⟨{ id := fid, title := effTitle title, createdAt := now, updatedAt := now
            messages := [], report := createDefaultReport (effTitle title) now },
          ?_, rfl, rfl, rfl, rfl, rfl, rfl, rfl, rfl⟩
  simp [createTask, resolveUser, hu]

/-- Witness for C4 at a concrete store, user and padded title. -/
theorem c4_create_task_default_report_witness :
    ((createTask fixtureStore (some "u1") (some "  My Topic  ") "t9" 7).2).isOk = true := by
  obtain ⟨tk, h, -, -, -, -, -, -, -, -⟩ :=
    c4_create_task_default_report fixtureStore "u1" (some "  My Topic  ") "t9" 7 fixtureUser
      (by decide)
  rw [h]
  rfl

/-- Claim C7: downloading a document resolves as follows — no document with
the requested id owned by the resolved user is `NotFound`; metadata present
but stored file missing from the upload directory is `Gone`; otherwise the
stored bytes are returned under the document's original file name. -/
theorem c7_download_cases (s : Store) (uid did : String) (u : User)
    (fs : String → Option String) (hu : findUser s uid = some u) :
    (u.documents.find? (fun d => d.id == did) = none →
      downloadDocument s (some uid) did fs = (s, .error .notFound)) ∧
    (∀ d, u.documents.find? (fun d => d.id == did) = some d →
      fs d.storedName = none →
      downloadDocument s (some uid) did fs = (s, .error .gone)) ∧
    (∀ d bytes, u.documents.find? (fun d => d.id == did) = some d →
      fs d.storedName = some bytes →
      downloadDocument s (some uid) did fs = (s, .ok (d.originalName, bytes))) := by
  refine ⟨fun h => ?_, fun d hd hf => ?_, fun d bytes hd hf => ?_⟩
  · simp [downloadDocument, resolveUser, hu, h]
  · simp [downloadDocument, resolveUser, hu, hd, hf]
  · simp [downloadDocument, resolveUser, hu, hd, hf]

/-- Witness for C7: with the stored file removed out-of-band the download
of the concrete fixture document fails with `Gone`, not `NotFound`. -/
theorem c7_download_cases_witness :
    downloadDocument fixtureStore (some "u1") "d1" (fun _ => none) =
      (fixtureStore, .error .gone) :=
  (c7_download_cases fixtureStore "u1" "d1" fixtureUser (fun _ => none)
    (by decide)).2.1 fixtureDoc (by decide) rfl

/-- Claim C5: login fails with `BadRequest` when email or password is
missing; with an unknown email (case-insensitively) it creates a user
storing the password as given and a name defaulting to the email's local
part and returns the fresh user id as token; with a known email and wrong
stored password it fails with `Unauthorized`; a second login with the same
email and correct password returns the same user id without creating a
second user. -/
theorem c5_login_contract (s : Store) :
    (∀ pw n fid now, login s none pw n fid now = (s, .error .badRequest)) ∧
    (∀ em n fid now, login s (some em) none n fid now = (s, .error .badRequest)) ∧
    (∀ em pw fid now, em ≠ "" → pw ≠ "" →
      s.users.find? (fun x => x.email.toLower == em.toLower) = none →
      (∃ u' : User,
        login s (some em) (some pw) none fid now = ({ users := s.users ++ [u'] }, .ok fid) ∧
        u'.id = fid ∧ u'.email = em ∧ u'.password = pw ∧ u'.name = localPart em) ∧
      (∀ n2 fid2 now2,
        login (login s (some em) (some pw) none fid now).1 (some em) (some pw) n2 fid2 now2 =
          ((login s (some em) (some pw) none fid now).1, .ok fid))) ∧
    (∀ em pw n fid now u, em ≠ "" → pw ≠ "" →
      s.users.find? (fun x => x.email.toLower == em.toLower) = some u →
      (u.password ≠ pw → login s (some em) (some pw) n fid now = (s, .error .unauthorized)) ∧
      (u.password = pw → login s (some em) (some pw) n fid now = (s, .ok u.id))) := by
  refine ⟨fun pw n fid now => rfl, fun em n fid now => rfl,
          fun em pw fid now hem hpw hnone => ⟨?_, fun n2 fid2 now2 => ?_⟩,
          fun em pw n fid now u hem hpw hsome => ⟨fun hne => ?_, fun heq => ?_⟩⟩
  · refine ⟨{ id := fid, email := em, password := pw, name := localPart em
              createdAt := now, updatedAt := now, tasks := [], documents := [] },
            ?_, rfl, rfl, rfl, rfl⟩
    simp [login, hem, hpw, hnone]
  · have h1 : (login s (some em) (some pw) none fid now).1 =
        { users := s.users ++
            [{ id := fid, email := em, password := pw, name := localPart em
               createdAt := now, updatedAt := now, tasks := [], documents := [] }] } := by
      simp [login, hem, hpw, hnone]
    rw [h1]
    simp [login, hem, hpw, find?_append_of_none hnone]
  · simp [login, hem, hpw, hsome, hne]
  · simp [login, hem, hpw, hsome, heq]

/-- Witness for C5: a first login on the empty store creates a user; a
second login with the same email and correct password returns the same id
as token and leaves the store unchanged. -/
theorem c5_login_contract_witness :
    login (login emptyStore (some "ana@example.com") (some "pw") none "u1" 0).1
        (some "ana@example.com") (some "pw") none "u9" 5 =
      ((login emptyStore (some "ana@example.com") (some "pw") none "u1" 0).1, .ok "u1") :=
  ((c5_login_contract emptyStore).2.2.1 "ana@example.com" "pw" "u1" 0
    (by decide) (by decide) rfl).2 none "u9" 5

/-- Claim C1: a successful invoke with a non-empty prompt `p` on a task of
the resolved user appends exactly one section to `report.sections`, exactly
one user message with content `p` followed by exactly one agent message to
the task's message log, and prepends exactly one revision whose `question`
is `p` to `report.revisionHistory`; the stated equalities pin the whole new
lists, so nothing else is added or removed. -/
theorem c1_invoke_deltas (s : Store) (uid tid p : String) (fmt : Nat → String)
    (m1 m2 : String) (now : Nat) (u : User) (t : Task)
    (hu : findUser s uid = some u)
    (ht : u.tasks.find? (fun x => x.id == tid) = some t)
    (hp : p ≠ "") :
    ∃ out : InvokeOut,
      (invoke s (some uid) tid (some p) fmt m1 m2 now).2 = .ok out ∧
      ∃ u', findUser (invoke s (some uid) tid (some p) fmt m1 m2 now).1 uid = some u' ∧
      ∃ t', u'.tasks.find? (fun x => x.id == tid) = some t' ∧
        t'.messages = t.messages ++
          [ { id := m1, role := "user", content := p, createdAt := now }
          , { id := m2, role := "agent", content := agentContent p, createdAt := now } ] ∧
        t'.report.sections = t.report.sections ++
          [buildSectionFromPrompt p (u.documents.filter (fun d => d.status == "processed"))] ∧
        t'.report.revisionHistory =
          { timestamp := now, question := p, highlights := revisionHighlights p }
            :: t.report.revisionHistory := by
  have hp' : (p == "") = false := beq_eq_false_iff_ne.mpr hp
  have hu' : s.users.find? (fun x => x.id == uid) = some u := hu
  have hbeq := List.find?_some hu'
  have hid : u.id = uid := eq_of_beq hbeq
  subst hid
  have htid0 := List.find?_some ht
  have htid : (t.id == tid) = true := htid0
  have hinv : invoke s (some u.id) tid (some p) fmt m1 m2 now =
      (updateUser s u.id (fun u0 =>
        { u0 with
          updatedAt := now
          tasks := updateFirst (fun x => x.id == tid)
            (fun x =>
              { x with
                messages := x.messages ++
                  [ { id := m1, role := "user", content := p, createdAt := now }
                  , { id := m2, role := "agent", content := agentContent p, createdAt := now } ]
                report := updateReport fmt t.report p
                  (u.documents.filter (fun d => d.status == "processed")) now
                updatedAt := now }) u0.tasks }),
       .ok { message := { id := m2, role := "agent", content := agentContent p, createdAt := now }
             report := updateReport fmt t.report p
               (u.documents.filter (fun d => d.status == "processed")) now
             insights := synthesiseInsights p
               (u.documents.filter (fun d => d.status == "processed")) }) := by
    simp [invoke, resolveUser, hu, ht, hp']
  rw [hinv]
  refine ⟨_, rfl, _, updateFirst_find? hu' (by simp), _,
          updateFirst_find? ht (by simpa using htid), ?_, ?_, ?_⟩
  · rfl
  · simp [updateReport]
  · simp [updateReport]

/-- Witness for C1 at the concrete fixture store, task and prompt. -/
theorem c1_invoke_deltas_witness :
    ((invoke fixtureStore (some "u1") "t1" (some "hello") fmt0 "m1" "m2" 4).2).isOk = true := by
  obtain ⟨out, h, -⟩ :=
    c1_invoke_deltas fixtureStore "u1" "t1" "hello" fmt0 "m1" "m2" 4 fixtureUser fixtureTask
      (by decide) (by decide) (by decide)
  rw [h]
  rfl

/-- Claim C8: renaming with a missing/non-string title (`none`) or a title
that trims to empty is a complete no-op — the store is returned exactly as
read; a title that trims non-empty sets the task's title to the trimmed
string and `updatedAt` on both task and user to `now`, and every other
field of the task, the user and the store is unchanged. -/
theorem c8_rename_frame (s : Store) (uid tid : String) (now : Nat) (u : User) (t : Task)
    (hu : findUser s uid = some u)
    (ht : u.tasks.find? (fun x => x.id == tid) = some t) :
    (renameTask s (some uid) tid none now = (s, .ok (normaliseTask t))) ∧
    (∀ ttl, ttl.trim = "" →
      renameTask s (some uid) tid (some ttl) now = (s, .ok (normaliseTask t))) ∧
    (∀ ttl, ttl.trim ≠ "" →
      (renameTask s (some uid) tid (some ttl) now).2 =
        .ok (normaliseTask { t with title := ttl.trim, updatedAt := now }) ∧
      ∃ u', findUser (renameTask s (some uid) tid (some ttl) now).1 uid = some u' ∧
        u'.id = u.id ∧ u'.email = u.email ∧ u'.password = u.password ∧
        u'.name = u.name ∧ u'.createdAt = u.createdAt ∧ u'.updatedAt = now ∧
        u'.documents = u.documents ∧
        u'.tasks.find? (fun x => x.id == tid) =
          some { t with title := ttl.trim, updatedAt := now } ∧
        (∀ t2 ∈ u.tasks, (t2.id == tid) = false → t2 ∈ u'.tasks) ∧
        (∀ u2 ∈ s.users, (u2.id == uid) = false →
          u2 ∈ (renameTask s (some uid) tid (some ttl) now).1.users)) := by
  have hu' : s.users.find? (fun x => x.id == uid) = some u := hu
  have hbeq := List.find?_some hu'
  have hid : u.id = uid := eq_of_beq hbeq
  subst hid
  have htid0 := List.find?_some ht
  have htid : (t.id == tid) = true := htid0
  refine ⟨?_, fun ttl httl => ?_, fun ttl httl => ?_⟩
  · simp [renameTask, resolveUser, hu, ht]
  · simp [renameTask, resolveUser, hu, ht, httl]
  · have httl' : (ttl.trim == "") = false := beq_eq_false_iff_ne.mpr httl
    have hren : renameTask s (some u.id) tid (some ttl) now =
        (updateUser s u.id (fun u0 =>
          { u0 with
            updatedAt := now
            tasks := updateFirst (fun x => x.id == tid)
              (fun x => { x with title := ttl.trim, updatedAt := now }) u0.tasks }),
         .ok (normaliseTask { t with title := ttl.trim, updatedAt := now })) := by
      simp [renameTask, resolveUser, hu, ht, httl']
    rw [hren]
    refine ⟨rfl, _, updateFirst_find? hu' (by simp), rfl, rfl, rfl, rfl, rfl, rfl, rfl,
            updateFirst_find? ht (by simpa using htid), ?_, ?_⟩
    · intro t2 ht2 hne
      exact mem_updateFirst_of_neg ht2 hne
    · intro u2 hu2 hne
      exact mem_updateFirst_of_neg hu2 hne

/-- Witness for C8: a rename of the concrete fixture task without a title
string is a complete no-op. -/
theorem c8_rename_frame_witness :
    renameTask fixtureStore (some "u1") "t1" none 9 =
      (fixtureStore, .ok (normaliseTask fixtureTask)) :=
  (c8_rename_frame fixtureStore "u1" "t1" 9 fixtureUser fixtureTask
    (by decide) (by decide)).1

/-- Counterexample to Claim C2 as stated: over arbitrary report values the
resulting lists can be SHORTER than the input — `Array.from(new Set(...))`
also collapses duplicates already present in the input list. Here a report
whose `nextSteps` is `["x","x","x"]` (installable through the unvalidated
report replace) yields a `nextSteps` of length 2 after one invoke. -/
theorem c2_dedup_cex :
    (updateReport fmt0 dupReport "p" [] 0).nextSteps.length <
      dupReport.nextSteps.length := by decide

/-- Claim C2 (amended): the synthesizer adds its two templated
recommendation strings and one templated next-step string, skipping any
already present verbatim; the result is duplicate-free; for input lists
without duplicates the input is preserved as a prefix (order-preserving,
first occurrence wins, list never shrinks); invoking twice with the same
prompt leaves `recommendations` and `nextSteps` without duplicates (indeed
unchanged by the second invoke), while two sections are appended and two
revisions prepended (no dedup there). -/
theorem c2_synthesiser_dedup (fmt : Nat → String) (r : Report) (p : String)
    (docs docs2 : List Document) (n1 n2 : Nat) :
    ((updateReport fmt r p docs n1).recommendations.Nodup ∧
     (updateReport fmt r p docs n1).nextSteps.Nodup) ∧
    (recDeepDive p ∈ (updateReport fmt r p docs n1).recommendations ∧
     recAlign ∈ (updateReport fmt r p docs n1).recommendations ∧
     stepOperationalise p ∈ (updateReport fmt r p docs n1).nextSteps) ∧
    (r.recommendations.Nodup →
      ∃ extra, (updateReport fmt r p docs n1).recommendations =
        r.recommendations ++ extra) ∧
    (r.nextSteps.Nodup →
      ∃ extra, (updateReport fmt r p docs n1).nextSteps = r.nextSteps ++ extra) ∧
    ((updateReport fmt (updateReport fmt r p docs n1) p docs2 n2).recommendations =
      (updateReport fmt r p docs n1).recommendations ∧
     (updateReport fmt (updateReport fmt r p docs n1) p docs2 n2).nextSteps =
      (updateReport fmt r p docs n1).nextSteps ∧
     (updateReport fmt (updateReport fmt r p docs n1) p docs2 n2).sections =
      r.sections ++ [buildSectionFromPrompt p docs, buildSectionFromPrompt p docs2] ∧
     (updateReport fmt (updateReport fmt r p docs n1) p docs2 n2).revisionHistory =
      { timestamp := n2, question := p, highlights := revisionHighlights p } ::
        { timestamp := n1, question := p, highlights := revisionHighlights p } ::
          r.revisionHistory) := by
  have hrec1 : (updateReport fmt r p docs n1).recommendations =
      jsSetDedup (r.recommendations ++ [recDeepDive p, recAlign]) := rfl
  have hstep1 : (updateReport fmt r p docs n1).nextSteps =
      jsSetDedup (r.nextSteps ++ [stepOperationalise p]) := rfl
  refine ⟨⟨jsSetDedup_nodup _, jsSetDedup_nodup _⟩, ⟨?_, ?_, ?_⟩, ?_, ?_, ?_, ?_, ?_, ?_⟩
  · rw [hrec1, mem_jsSetDedup]
    simp
  · rw [hrec1, mem_jsSetDedup]
    simp
  · rw [hstep1, mem_jsSetDedup]
    simp
  · intro h
    rw [hrec1]
    have h1 : jsSetDedup (r.recommendations ++ [recDeepDive p, recAlign]) =
        dedupGo r.recommendations [recDeepDive p, recAlign] := by
      show dedupGo [] _ = _
      rw [dedupGo_append]
      rw [show dedupGo [] r.recommendations = r.recommendations from jsSetDedup_eq_self h]
    rw [h1]
    exact dedupGo_extends _ _
  · intro h
    rw [hstep1]
    have h1 : jsSetDedup (r.nextSteps ++ [stepOperationalise p]) =
        dedupGo r.nextSteps [stepOperationalise p] := by
      show dedupGo [] _ = _
      rw [dedupGo_append]
      rw [show dedupGo [] r.nextSteps = r.nextSteps from jsSetDedup_eq_self h]
    rw [h1]
    exact dedupGo_extends _ _
  · show jsSetDedup ((updateReport fmt r p docs n1).recommendations ++
        [recDeepDive p, recAlign]) = _
    show dedupGo [] _ = _
    rw [dedupGo_append]
    rw [show dedupGo [] (updateReport fmt r p docs n1).recommendations =
          (updateReport fmt r p docs n1).recommendations from
        jsSetDedup_eq_self (jsSetDedup_nodup _)]
    refine dedupGo_eq_acc _ _ ?_
    intro x hx
    rcases List.mem_cons.mp hx with rfl | hx
    · rw [hrec1, mem_jsSetDedup]
      simp
    · rcases List.mem_cons.mp hx with rfl | hx
      · rw [hrec1, mem_jsSetDedup]
        simp
      · simp at hx
  · show jsSetDedup ((updateReport fmt r p docs n1).nextSteps ++
        [stepOperationalise p]) = _
    show dedupGo [] _ = _
    rw [dedupGo_append]
    rw [show dedupGo [] (updateReport fmt r p docs n1).nextSteps =
          (updateReport fmt r p docs n1).nextSteps from
        jsSetDedup_eq_self (jsSetDedup_nodup _)]
    refine dedupGo_eq_acc _ _ ?_
    intro x hx
    rcases List.mem_cons.mp hx with rfl | hx
    · rw [hstep1, mem_jsSetDedup]
      simp
    · simp at hx
  · simp [updateReport]
  · simp [updateReport]

/-- Witness for C2 at the fresh default report (whose lists are
duplicate-free): the next-step list is extended, never shrunk. -/
theorem c2_synthesiser_dedup_witness :
    ∃ extra, (updateReport fmt0 (createDefaultReport "T" 0) "p" [] 1).nextSteps =
      (createDefaultReport "T" 0).nextSteps ++ extra :=
  (c2_synthesiser_dedup fmt0 (createDefaultReport "T" 0) "p" [] [] 1 2).2.2.2.1
    (by decide)

/-- Rewrite used to align the exporter with the spec template: merge the
blank-line separator into the last-updated header literal. -/
theorem mergeLastUpdated (x : String) :
    "\n\n" ++ ("**Last Updated:** " ++ x) = "\n\n**Last Updated:** " ++ x := by
  rw [← String.append_assoc]
  exact rfl

/-- Merge the blank-line separator into the executive-summary heading. -/
theorem mergeExecSummary (x : String) :
    "\n\n" ++ ("## Executive Summary\n" ++ x) = "\n\n## Executive Summary\n" ++ x := by
  rw [← String.append_assoc]
  exact rfl

/-- Merge the blank-line separator into the recommendations heading. -/
theorem mergeRecommendations (x : String) :
    "\n\n" ++ ("## Recommendations\n" ++ x) = "\n\n## Recommendations\n" ++ x := by
  rw [← String.append_assoc]
  exact rfl

/-- Merge the blank-line separator into the next-steps heading. -/
theorem mergeNextSteps (x : String) :
    "\n\n" ++ ("## Next Steps\n" ++ x) = "\n\n## Next Steps\n" ++ x := by
  rw [← String.append_assoc]
  exact rfl

/-- Merge the blank-line separator into the revision-history heading. -/
theorem mergeRevisionHistory (x : String) :
    "\n\n" ++ ("## Revision History\n" ++ x) = "\n\n## Revision History\n" ++ x := by
  rw [← String.append_assoc]
  exact rfl

/-- Claim C9: the Markdown encoder is a pure, deterministic function of the
report — two evaluations under the same fixed clock/locale rendering yield
the same string — and the output follows the fixed template: title header,
last-updated line, executive summary, sections as subheadings with bullet
lists, recommendations as bullets, next steps as a numbered list and
revision history as `timestamp: highlights` bullets, joined by blank
lines. -/
theorem c9_markdown_deterministic_template (fmt : Nat → String) (r : Report) :
    downloadMarkdownText fmt r = downloadMarkdownText fmt r ∧
    downloadMarkdownText fmt r = markdownTemplateSpec fmt r := by
  refine ⟨rfl, ?_⟩
  simp only [downloadMarkdownText, markdownTemplateSpec, joinBlocks]
  simp only [String.append_assoc]
  rw [mergeLastUpdated, mergeExecSummary, mergeRecommendations, mergeNextSteps,
      mergeRevisionHistory]

/-- Every handler result is either an untouched store or a success. -/
theorem error_keeps_store {σ ε ο : Type} {res : σ × Except ε ο} {s : σ}
    (hd : res.1 = s ∨ (res.2).isOk = true) {e : ε} (h : res.2 = .error e) :
    res.1 = s := by
  rcases hd with hd | hd
  · exact hd
  · rw [h] at hd
    exact absurd hd (by simp [Except.isOk, Except.toBool])

/-- Branch analysis of `login`: mutation only on success. -/
theorem login_atomic (s : Store) (em pw n : Option String) (fid : String) (now : Nat) :
    (login s em pw n fid now).1 = s ∨ ((login s em pw n fid now).2).isOk = true := by
  unfold login
  repeat' split
  all_goals first | exact Or.inl rfl | exact Or.inr rfl

/-- Branch analysis of `createTask`: mutation only on success. -/
theorem createTask_atomic (s : Store) (tok ttl : Option String) (fid : String) (now : Nat) :
    (createTask s tok ttl fid now).1 = s ∨ ((createTask s tok ttl fid now).2).isOk = true := by
  unfold createTask
  repeat' split
  all_goals first | exact Or.inl rfl | exact Or.inr rfl

/-- Branch analysis of `renameTask`: mutation only on success. -/
theorem renameTask_atomic (s : Store) (tok : Option String) (tid : String)
    (ttl : Option String) (now : Nat) :
    (renameTask s tok tid ttl now).1 = s ∨ ((renameTask s tok tid ttl now).2).isOk = true := by
  unfold renameTask
  repeat' split
  all_goals first | exact Or.inl rfl | exact Or.inr rfl

/-- Branch analysis of `deleteTask`: mutation only on success. -/
theorem deleteTask_atomic (s : Store) (tok : Option String) (tid : String) (now : Nat) :
    (deleteTask s tok tid now).1 = s ∨ ((deleteTask s tok tid now).2).isOk = true := by
  unfold deleteTask
  repeat' split
  all_goals first | exact Or.inl rfl | exact Or.inr rfl

/-- Branch analysis of `invoke`: mutation only on success. -/
theorem invoke_atomic (s : Store) (tok : Option String) (tid : String)
    (p : Option String) (fmt : Nat → String) (m1 m2 : String) (now : Nat) :
    (invoke s tok tid p fmt m1 m2 now).1 = s ∨
      ((invoke s tok tid p fmt m1 m2 now).2).isOk = true := by
  unfold invoke
  repeat' split
  all_goals first | exact Or.inl rfl | exact Or.inr rfl

/-- Branch analysis of `replaceReport`: mutation only on success. -/
theorem replaceReport_atomic (s : Store) (tok : Option String) (tid : String)
    (patch : ReportPatch) (now : Nat) :
    (replaceReport s tok tid patch now).1 = s ∨
      ((replaceReport s tok tid patch now).2).isOk = true := by
  unfold replaceReport
  repeat' split
  all_goals first | exact Or.inl rfl | exact Or.inr rfl

/-- Branch analysis of `uploadDocument`: mutation only on success. -/
theorem uploadDocument_atomic (s : Store) (tok : Option String) (f : Option FileInfo)
    (fid : String) (now : Nat) :
    (uploadDocument s tok f fid now).1 = s ∨
      ((uploadDocument s tok f fid now).2).isOk = true := by
  unfold uploadDocument
  repeat' split
  all_goals first | exact Or.inl rfl | exact Or.inr rfl

/-- Branch analysis of `downloadDocument`: the store is never touched. -/
theorem downloadDocument_atomic (s : Store) (tok : Option String) (did : String)
    (fs : String → Option String) :
    (downloadDocument s tok did fs).1 = s := by
  unfold downloadDocument
  repeat' split
  all_goals rfl

/-- Claim C10: whenever a handler responds with an error status
(`BadRequest`, `Unauthorized`, `NotFound` or `Gone`) the store it leaves
behind is exactly the store it read at the start of the request; in
particular an invoke on an existing task with a missing/non-string or
empty prompt fails with `BadRequest` and changes nothing. -/
theorem c10_error_atomicity (s : Store) :
    (∀ em pw n fid now e, (login s em pw n fid now).2 = .error e →
      (login s em pw n fid now).1 = s) ∧
    (∀ tok ttl fid now e, (createTask s tok ttl fid now).2 = .error e →
      (createTask s tok ttl fid now).1 = s) ∧
    (∀ tok tid ttl now e, (renameTask s tok tid ttl now).2 = .error e →
      (renameTask s tok tid ttl now).1 = s) ∧
    (∀ tok tid now e, (deleteTask s tok tid now).2 = .error e →
      (deleteTask s tok tid now).1 = s) ∧
    (∀ tok tid p fmt m1 m2 now e, (invoke s tok tid p fmt m1 m2 now).2 = .error e →
      (invoke s tok tid p fmt m1 m2 now).1 = s) ∧
    (∀ tok tid patch now e, (replaceReport s tok tid patch now).2 = .error e →
      (replaceReport s tok tid patch now).1 = s) ∧
    (∀ tok f fid now e, (uploadDocument s tok f fid now).2 = .error e →
      (uploadDocument s tok f fid now).1 = s) ∧
    (∀ tok did fs e, (downloadDocument s tok did fs).2 = .error e →
      (downloadDocument s tok did fs).1 = s) ∧
    (∀ uid tid fmt m1 m2 now u t, findUser s uid = some u →
      u.tasks.find? (fun x => x.id == tid) = some t →
      invoke s (some uid) tid none fmt m1 m2 now = (s, .error .badRequest) ∧
      invoke s (some uid) tid (some "") fmt m1 m2 now = (s, .error .badRequest)) := by
  refine ⟨fun em pw n fid now e h => error_keeps_store (login_atomic s em pw n fid now) h,
          fun tok ttl fid now e h => error_keeps_store (createTask_atomic s tok ttl fid now) h,
          fun tok tid ttl now e h => error_keeps_store (renameTask_atomic s tok tid ttl now) h,
          fun tok tid now e h => error_keeps_store (deleteTask_atomic s tok tid now) h,
          fun tok tid p fmt m1 m2 now e h =>
            error_keeps_store (invoke_atomic s tok tid p fmt m1 m2 now) h,
          fun tok tid patch now e h =>
            error_keeps_store (replaceReport_atomic s tok tid patch now) h,
          fun tok f fid now e h => error_keeps_store (uploadDocument_atomic s tok f fid now) h,
          fun tok did fs e _ => downloadDocument_atomic s tok did fs,
          fun uid tid fmt m1 m2 now u t hu ht => ⟨?_, ?_⟩⟩
  · simp [invoke, resolveUser, hu, ht]
  · simp [invoke, resolveUser, hu, ht]

/-- Witness for C10: an invoke with an empty prompt on the concrete fixture
task fails with `BadRequest` and leaves the store untouched. -/
theorem c10_error_atomicity_witness :
    invoke fixtureStore (some "u1") "t1" (some "") fmt0 "m1" "m2" 3 =
      (fixtureStore, .error .badRequest) :=
  ((c10_error_atomicity fixtureStore).2.2.2.2.2.2.2.2 "u1" "t1" fmt0 "m1" "m2" 3
    fixtureUser fixtureTask (by decide) (by decide)).2

/-- Documents of an updated user keep acceptable statuses provided the
update function does. -/
theorem statusOk_updateUser {s : Store} {uid : String} {f : User → User}
    (h : statusOk s)
    (hf : ∀ u ∈ s.users, ∀ d ∈ (f u).documents,
      d.status = "processing" ∨ d.status = "processed") :
    statusOk (updateUser s uid f) := by
  intro u' hu' d hd
  rcases mem_updateFirst hu' with hu' | ⟨y, hy, rfl⟩
  · exact h u' hu' d hd
  · exact hf y hy d hd

/-- `login` preserves the document-status invariant. -/
theorem statusOk_login (s : Store) (em pw n : Option String) (fid : String) (now : Nat)
    (h : statusOk s) : statusOk (login s em pw n fid now).1 := by
  unfold login
  repeat' split
  all_goals try exact h
  all_goals
    intro u hu d hd
    rcases List.mem_append.mp hu with hu | hu
    · exact h u hu d hd
    · simp only [List.mem_singleton] at hu
      subst hu
      simp at hd

/-- `createTask` preserves the document-status invariant. -/
theorem statusOk_createTask (s : Store) (tok ttl : Option String) (fid : String) (now : Nat)
    (h : statusOk s) : statusOk (createTask s tok ttl fid now).1 := by
  unfold createTask
  repeat' split
  all_goals try exact h
  exact statusOk_updateUser h (fun u hu d hd => h u hu d hd)

/-- `renameTask` preserves the document-status invariant. -/
theorem statusOk_renameTask (s : Store) (tok : Option String) (tid : String)
    (ttl : Option String) (now : Nat)
    (h : statusOk s) : statusOk (renameTask s tok tid ttl now).1 := by
  unfold renameTask
  repeat' split
  all_goals try exact h
  exact statusOk_updateUser h (fun u hu d hd => h u hu d hd)

/-- `deleteTask` preserves the document-status invariant. -/
theorem statusOk_deleteTask (s : Store) (tok : Option String) (tid : String) (now : Nat)
    (h : statusOk s) : statusOk (deleteTask s tok tid now).1 := by
  unfold deleteTask
  repeat' split
  all_goals try exact h
  exact statusOk_updateUser h (fun u hu d hd => h u hu d hd)

/-- `invoke` preserves the document-status invariant. -/
theorem statusOk_invoke (s : Store) (tok : Option String) (tid : String) (p : Option String)
    (fmt : Nat → String) (m1 m2 : String) (now : Nat)
    (h : statusOk s) : statusOk (invoke s tok tid p fmt m1 m2 now).1 := by
  unfold invoke
  repeat' split
  all_goals try exact h
  exact statusOk_updateUser h (fun u hu d hd => h u hu d hd)

/-- `replaceReport` preserves the document-status invariant. -/
theorem statusOk_replaceReport (s : Store) (tok : Option String) (tid : String)
    (patch : ReportPatch) (now : Nat)
    (h : statusOk s) : statusOk (replaceReport s tok tid patch now).1 := by
  unfold replaceReport
  repeat' split
  all_goals try exact h
  exact statusOk_updateUser h (fun u hu d hd => h u hu d hd)

/-- `uploadDocument` preserves the document-status invariant: the new
record starts out `processing`. -/
theorem statusOk_uploadDocument (s : Store) (tok : Option String) (f : Option FileInfo)
    (fid : String) (now : Nat)
    (h : statusOk s) : statusOk (uploadDocument s tok f fid now).1 := by
  unfold uploadDocument
  repeat' split
  all_goals try exact h
  refine statusOk_updateUser h ?_
  intro u hu d hd
  rcases List.mem_append.mp hd with hd | hd
  · exact h u hu d hd
  · simp only [List.mem_singleton] at hd
    subst hd
    left
    rfl

/-- The delayed flip preserves the document-status invariant: it can only
install `processed`. -/
theorem statusOk_flip (s : Store) (uid did : String) (h : statusOk s) :
    statusOk (flipDocument s uid did) := by
  unfold flipDocument
  repeat' split
  all_goals try exact h
  refine statusOk_updateUser h ?_
  intro u hu d hd
  rcases mem_updateFirst hd with hd | ⟨y, hy, rfl⟩
  · exact h u hu d hd
  · right
    rfl

/-- Every single operation preserves the document-status invariant. -/
theorem statusOk_step (fmt : Nat → String) (o : Op) (now : Nat) (s : Store)
    (h : statusOk s) : statusOk (o.apply fmt now s) := by
  cases o with
  | login e p n fid => exact statusOk_login s e p n fid now h
  | createTask tok ttl fid => exact statusOk_createTask s tok ttl fid now h
  | renameTask tok tid ttl => exact statusOk_renameTask s tok tid ttl now h
  | deleteTask tok tid => exact statusOk_deleteTask s tok tid now h
  | invoke tok tid p m1 m2 => exact statusOk_invoke s tok tid p fmt m1 m2 now h
  | replaceReport tok tid patch => exact statusOk_replaceReport s tok tid patch now h
  | upload tok f fid => exact statusOk_uploadDocument s tok f fid now h
  | flip uid did => exact statusOk_flip s uid did h

/-- The document-status invariant holds along every run. -/
theorem statusOk_run (fmt : Nat → String) (ops : List (Op × Nat)) (s : Store)
    (h : statusOk s) : statusOk (run fmt s ops) := by
  induction ops generalizing s with
  | nil => exact h
  | cons x rest ih =>
    obtain ⟨o, t⟩ := x
    exact ih _ (statusOk_step fmt o t s h)

/-- Claim C6: an upload by a resolved user creates the document with
status `processing` (and the fixed queued note); the delayed transition,
when it fires, marks the document `processed` with the fixed processed note
exactly when a document with that id still exists for that user, and is a
no-op (not an error) when the user or document has disappeared; and in
every store reachable from the empty store no document ever has status
`failed`. -/
theorem c6_ingestion_lifecycle :
    (∀ s uid f fid now u, findUser s uid = some u →
      ∃ d, (uploadDocument s (some uid) (some f) fid now).2 = .ok d ∧
        d.status = "processing" ∧ d.notes = queuedNote ∧ d.id = fid ∧
        d.originalName = f.originalname ∧ d.storedName = f.filename) ∧
    (∀ s uid did u d, findUser s uid = some u →
      u.documents.find? (fun x => x.id == did) = some d →
      ∃ u', findUser (flipDocument s uid did) uid = some u' ∧
        u'.documents.find? (fun x => x.id == did) =
          some { d with status := "processed", notes := processedNote }) ∧
    (∀ s uid did, findUser s uid = none → flipDocument s uid did = s) ∧
    (∀ s uid did u, findUser s uid = some u →
      u.documents.find? (fun x => x.id == did) = none → flipDocument s uid did = s) ∧
    (∀ fmt ops, ∀ u ∈ (run fmt emptyStore ops).users, ∀ d ∈ u.documents,
      d.status ≠ "failed") := by
  refine ⟨?_, ?_, ?_, ?_, ?_⟩
  · intro s uid f fid now u hu
    refine ⟨{ id := fid, originalName := f.originalname, storedName := f.filename
              uploadedAt := now, size := f.size, status := "processing", notes := queuedNote },
            ?_, rfl, rfl, rfl, rfl, rfl⟩
    simp [uploadDocument, resolveUser, hu]
  · intro s uid did u d hu hd
    have hu' : s.users.find? (fun x => x.id == uid) = some u := hu
    have hdid := List.find?_some hd
    have hflip : flipDocument s uid did =
        updateUser s uid (fun u0 =>
          { u0 with
            documents := updateFirst (fun x => x.id == did)
              (fun x => { x with status := "processed", notes := processedNote })
              u0.documents }) := by
      simp [flipDocument, hu, hd]
    rw [hflip]
    refine ⟨_, updateFirst_find? hu' (by simpa using List.find?_some hu'), ?_⟩
    exact updateFirst_find? hd (by simpa using hdid)
  · intro s uid did hu
    simp [flipDocument, hu]
  · intro s uid did u hu hd
    simp [flipDocument, hu, hd]
  · intro fmt ops u hu d hd heq
    have hok := statusOk_run fmt ops emptyStore
      (by intro u0 hu0; exact absurd hu0 (List.not_mem_nil u0)) u hu d hd
    rw [heq] at hok
    rcases hok with hok | hok
    · exact absurd hok (by decide)
    · exact absurd hok (by decide)

/-- Witness for C6: a concrete upload to the fixture store yields a
`processing` document with the queued note. -/
theorem c6_ingestion_lifecycle_witness :
    ∃ d, (uploadDocument fixtureStore (some "u1")
        (some { originalname := "a.txt", filename := "s9", size := 5 }) "d9" 6).2 = .ok d ∧
      d.status = "processing" ∧ d.notes = queuedNote ∧ d.id = "d9" ∧
      d.originalName = "a.txt" ∧ d.storedName = "s9" :=
  c6_ingestion_lifecycle.1 fixtureStore "u1"
    { originalname := "a.txt", filename := "s9", size := 5 } "d9" 6 fixtureUser (by decide)

/-- The revision-history invariant is monotone in the clock bound. -/
theorem revInv_mono {b b' : Nat} {s : Store} (h : revInv b s) (hb : b ≤ b') :
    revInv b' s := by
  intro u hu tk htk
  obtain ⟨hc, hlt⟩ := h u hu tk htk
  exact ⟨hc, fun r hr => lt_of_lt_of_le (hlt r hr) hb⟩

/-- The revision-history invariant survives a single-user update whose task
transformation preserves it. -/
theorem revInv_updateUser {b b' : Nat} {s : Store} {uid : String} {f : User → User}
    (h : revInv b s) (hb : b ≤ b')
    (hf : ∀ u ∈ s.users,
      (∀ tk ∈ u.tasks, List.Chain' revNewer tk.report.revisionHistory ∧
        ∀ r ∈ tk.report.revisionHistory, r.timestamp < b) →
      ∀ tk ∈ (f u).tasks, List.Chain' revNewer tk.report.revisionHistory ∧
        ∀ r ∈ tk.report.revisionHistory, r.timestamp < b') :
    revInv b' (updateUser s uid f) := by
  intro u' hu' tk htk
  rcases mem_updateFirst hu' with hu' | ⟨y, hy, rfl⟩
  · obtain ⟨hc, hlt⟩ := h u' hu' tk htk
    exact ⟨hc, fun r hr => lt_of_lt_of_le (hlt r hr) hb⟩
  · exact hf y hy (h y hy) tk htk

/-- `login` preserves the revision-history invariant. -/
theorem revInv_login (s : Store) (em pw n : Option String) (fid : String) (now b b' : Nat)
    (h : revInv b s) (hb : b ≤ b') : revInv b' (login s em pw n fid now).1 := by
  unfold login
  repeat' split
  all_goals try exact revInv_mono h hb
  all_goals
    intro u hu tk htk
    rcases List.mem_append.mp hu with hu | hu
    · obtain ⟨hc, hlt⟩ := h u hu tk htk
      exact ⟨hc, fun r hr => lt_of_lt_of_le (hlt r hr) hb⟩
    · simp only [List.mem_singleton] at hu
      subst hu
      simp at htk

/-- `createTask` preserves the revision-history invariant: the new task's
history is empty. -/
theorem revInv_createTask (s : Store) (tok ttl : Option String) (fid : String)
    (now b b' : Nat) (h : revInv b s) (hb : b ≤ b') :
    revInv b' (createTask s tok ttl fid now).1 := by
  unfold createTask
  repeat' split
  all_goals try exact revInv_mono h hb
  refine revInv_updateUser h hb ?_
  intro u hu hua tk htk
  rcases List.mem_append.mp htk with htk | htk
  · obtain ⟨hc, hlt⟩ := hua tk htk
    exact ⟨hc, fun r hr => lt_of_lt_of_le (hlt r hr) hb⟩
  · simp only [List.mem_singleton] at htk
    subst htk
    refine ⟨?_, ?_⟩ <;> simp [createDefaultReport]

/-- `renameTask` preserves the revision-history invariant: reports are
untouched. -/
theorem revInv_renameTask (s : Store) (tok : Option String) (tid : String)
    (ttl : Option String) (now b b' : Nat) (h : revInv b s) (hb : b ≤ b') :
    revInv b' (renameTask s tok tid ttl now).1 := by
  unfold renameTask
  repeat' split
  all_goals try exact revInv_mono h hb
  refine revInv_updateUser h hb ?_
  intro u hu hua tk htk
  rcases mem_updateFirst htk with htk | ⟨y, hy, rfl⟩
  · obtain ⟨hc, hlt⟩ := hua tk htk
    exact ⟨hc, fun r hr => lt_of_lt_of_le (hlt r hr) hb⟩
  · obtain ⟨hc, hlt⟩ := hua y hy
    exact ⟨hc, fun r hr => lt_of_lt_of_le (hlt r hr) hb⟩

/-- `deleteTask` preserves the revision-history invariant. -/
theorem revInv_deleteTask (s : Store) (tok : Option String) (tid : String)
    (now b b' : Nat) (h : revInv b s) (hb : b ≤ b') :
    revInv b' (deleteTask s tok tid now).1 := by
  unfold deleteTask
  repeat' split
  all_goals try exact revInv_mono h hb
  refine revInv_updateUser h hb ?_
  intro u hu hua tk htk
  obtain ⟨hc, hlt⟩ := hua tk (mem_eraseFirst htk)
  exact ⟨hc, fun r hr => lt_of_lt_of_le (hlt r hr) hb⟩

/-- `uploadDocument` preserves the revision-history invariant. -/
theorem revInv_upload (s : Store) (tok : Option String) (f : Option FileInfo)
    (fid : String) (now b b' : Nat) (h : revInv b s) (hb : b ≤ b') :
    revInv b' (uploadDocument s tok f fid now).1 := by
  unfold uploadDocument
  repeat' split
  all_goals try exact revInv_mono h hb
  refine revInv_updateUser h hb ?_
  intro u hu hua tk htk
  obtain ⟨hc, hlt⟩ := hua tk htk
  exact ⟨hc, fun r hr => lt_of_lt_of_le (hlt r hr) hb⟩

/-- The delayed document flip preserves the revision-history invariant. -/
theorem revInv_flip (s : Store) (uid did : String) (b b' : Nat)
    (h : revInv b s) (hb : b ≤ b') : revInv b' (flipDocument s uid did) := by
  unfold flipDocument
  repeat' split
  all_goals try exact revInv_mono h hb
  refine revInv_updateUser h hb ?_
  intro u hu hua tk htk
  obtain ⟨hc, hlt⟩ := hua tk htk
  exact ⟨hc, fun r hr => lt_of_lt_of_le (hlt r hr) hb⟩

/-- `invoke` executed at time `now` within the bounds preserves the
revision-history invariant: the prepended revision is strictly newer than
every existing one. -/
theorem revInv_invoke (s : Store) (tok : Option String) (tid : String) (p : Option String)
    (fmt : Nat → String) (m1 m2 : String) (now b b' : Nat)
    (h : revInv b s) (hbnow : b ≤ now) (hnow : now < b') :
    revInv b' (invoke s tok tid p fmt m1 m2 now).1 := by
  have hb : b ≤ b' := le_of_lt (lt_of_le_of_lt hbnow hnow)
  rcases hres : resolveUser s tok with e | u
  · simp only [invoke, hres]
    exact revInv_mono h hb
  rcases hfind : u.tasks.find? (fun t => t.id == tid) with _ | t
  · simp only [invoke, hres, hfind]
    exact revInv_mono h hb
  rcases p with _ | p
  · simp only [invoke, hres, hfind]
    exact revInv_mono h hb
  by_cases hp : (p == "") = true
  · simp only [invoke, hres, hfind, hp, if_true]
    exact revInv_mono h hb
  have hmemu : u ∈ s.users := by
    rcases tok with _ | uid
    · simp [resolveUser] at hres
    · simp only [resolveUser] at hres
      rcases hfu : findUser s uid with _ | u2
      · rw [hfu] at hres
        simp at hres
      · rw [hfu] at hres
        simp only [Except.ok.injEq] at hres
        subst hres
        exact List.mem_of_find?_eq_some hfu
  have hmemt : t ∈ u.tasks := List.mem_of_find?_eq_some hfind
  obtain ⟨hct, hltt⟩ := h u hmemu t hmemt
  simp only [invoke, hres, hfind, if_neg hp]
  refine revInv_updateUser h hb ?_
  intro u0 hu0 hua tk htk
  rcases mem_updateFirst htk with htk | ⟨y, hy, rfl⟩
  · obtain ⟨hc, hlt⟩ := hua tk htk
    exact ⟨hc, fun r hr => lt_of_lt_of_le (hlt r hr) hb⟩
  refine ⟨?_, ?_⟩
  · show List.Chain' revNewer
      ({ timestamp := now, question := p, highlights := revisionHighlights p }
        :: t.report.revisionHistory)
    rcases hrh : t.report.revisionHistory with _ | ⟨r0, rest⟩
    · exact List.chain'_singleton _
    · rw [hrh] at hct
      refine List.chain'_cons.mpr ⟨?_, hct⟩
      show r0.timestamp < now
      exact lt_of_lt_of_le (hltt r0 (by rw [hrh]; exact List.mem_cons_self r0 rest)) hbnow
  · intro r hr
    rcases List.mem_cons.mp hr with rfl | hr
    · exact hnow
    · exact lt_of_lt_of_le (hltt r hr) hb

/-- Every non-replace operation at a time within the bounds preserves the
revision-history invariant. -/
theorem revInv_step (fmt : Nat → String) (o : Op) (now b b' : Nat) (s : Store)
    (h : revInv b s) (hbnow : b ≤ now) (hnow : now < b') (hnr : o.isReplace = false) :
    revInv b' (o.apply fmt now s) := by
  have hb : b ≤ b' := le_of_lt (lt_of_le_of_lt hbnow hnow)
  cases o with
  | login e p n fid => exact revInv_login s e p n fid now b b' h hb
  | createTask tok ttl fid => exact revInv_createTask s tok ttl fid now b b' h hb
  | renameTask tok tid ttl => exact revInv_renameTask s tok tid ttl now b b' h hb
  | deleteTask tok tid => exact revInv_deleteTask s tok tid now b b' h hb
  | invoke tok tid p m1 m2 => exact revInv_invoke s tok tid p fmt m1 m2 now b b' h hbnow hnow
  | replaceReport tok tid patch => simp [Op.isReplace] at hnr
  | upload tok f fid => exact revInv_upload s tok f fid now b b' h hb
  | flip uid did => exact revInv_flip s uid did b b' h hb

/-- The revision-history invariant holds at the end of every timed
replace-free run. -/
theorem revInv_run (fmt : Nat → String) (ops : List (Op × Nat)) (b : Nat) (s : Store)
    (hT : timedFrom b ops = true) (hnr : ∀ x ∈ ops, x.1.isReplace = false)
    (h : revInv b s) : ∃ b', revInv b' (run fmt s ops) := by
  induction ops generalizing b s with
  | nil => exact ⟨b, h⟩
  | cons x rest ih =>
    obtain ⟨o, t⟩ := x
    simp only [timedFrom, Bool.and_eq_true, decide_eq_true_eq] at hT
    obtain ⟨hbt, hT⟩ := hT
    exact ih (t + 1) (o.apply fmt t s) hT
      (fun y hy => hnr y (List.mem_cons_of_mem _ hy))
      (revInv_step fmt o t b (t + 1) s h hbt (Nat.lt_succ_self t)
        (hnr (o, t) (List.mem_cons_self _ _)))

/-- Claim C3 (amended): along every timed trace of service operations that
does not contain a report replace, each task's `revisionHistory` is
strictly newest-first; in particular when it is non-empty its head strictly
postdates every other entry, i.e. `revisionHistory[0]` is the most recently
added revision. -/
theorem c3_revision_history_newest_first (fmt : Nat → String) (ops : List (Op × Nat))
    (hT : timedFrom 0 ops = true) (hnr : ∀ x ∈ ops, x.1.isReplace = false) :
    ∀ u ∈ (run fmt emptyStore ops).users, ∀ tk ∈ u.tasks,
      List.Chain' revNewer tk.report.revisionHistory ∧
      ∀ r0 rest, tk.report.revisionHistory = r0 :: rest →
        ∀ r ∈ rest, r.timestamp < r0.timestamp := by
  obtain ⟨b', hinv⟩ := revInv_run fmt ops 0 emptyStore hT hnr
    (by intro u hu; exact absurd hu (List.not_mem_nil u))
  intro u hu tk htk
  obtain ⟨hc, -⟩ := hinv u hu tk htk
  refine ⟨hc, fun r0 rest hrh r hr => ?_⟩
  rw [hrh] at hc
  exact chain_head_newest hc r hr

/-- Evaluation of the replace-free trace `c3GoodOps`. -/
theorem run_c3GoodOps_eval :
    run fmt0 emptyStore c3GoodOps = { users := [c3FinalUser] } := by
  simp [run, Op.apply, c3GoodOps, login, createTask, invoke, resolveUser, findUser,
        updateUser, updateFirst, effTitle, emptyStore, c3FinalUser, c3Task3, c3Report3,
        c3Report2, List.find?]

/-- Witness for C3 (amended) along the concrete trace `c3GoodOps`: the
second invoke's revision (timestamp 3) heads the history and strictly
postdates the first invoke's revision (timestamp 2). -/
theorem c3_revision_history_newest_first_witness :
    ({ timestamp := 2, question := "p", highlights := revisionHighlights "p" } :
      Revision).timestamp <
    ({ timestamp := 3, question := "q", highlights := revisionHighlights "q" } :
      Revision).timestamp := by
  have hu : c3FinalUser ∈ (run fmt0 emptyStore c3GoodOps).users := by
    rw [run_c3GoodOps_eval]
    exact List.mem_singleton.mpr rfl
  have htk : c3Task3 ∈ c3FinalUser.tasks := by
    simp [c3FinalUser]
  have hrh : c3Task3.report.revisionHistory =
      { timestamp := 3, question := "q", highlights := revisionHighlights "q" } ::
        [{ timestamp := 2, question := "p", highlights := revisionHighlights "p" }] := by
    simp [c3Task3, c3Report3, c3Report2, updateReport, createDefaultReport]
  exact (c3_revision_history_newest_first fmt0 c3GoodOps (by decide) (by decide)
      c3FinalUser hu c3Task3 htk).2
    { timestamp := 3, question := "q", highlights := revisionHighlights "q" }
    [{ timestamp := 2, question := "p", highlights := revisionHighlights "p" }] hrh
    { timestamp := 2, question := "p", highlights := revisionHighlights "p" }
    (List.mem_singleton.mpr rfl)

/-- Evaluation of the trace `c3CexOps` ending in a report replace. -/
theorem run_c3CexOps_eval :
    run fmt0 emptyStore c3CexOps = { users := [c3CexUser] } := by
  simp [run, Op.apply, c3CexOps, login, createTask, replaceReport, resolveUser, findUser,
        updateUser, updateFirst, effTitle, emptyStore, c3CexUser, c3CexTask, List.find?]

/-- Counterexample to Claim C3 as stated: the operation list of the claim
includes the report replace, and a replace installing a caller-supplied
oldest-first `revisionHistory` yields a reachable timed state in which
`revisionHistory[0]` strictly predates a later entry — the list is not
newest-first. -/
theorem c3_revision_history_cex :
    timedFrom 0 c3CexOps = true ∧
    ∃ u ∈ (run fmt0 emptyStore c3CexOps).users, ∃ tk ∈ u.tasks,
      ∃ r0 rest, tk.report.revisionHistory = r0 :: rest ∧
        ∃ r ∈ rest, r0.timestamp < r.timestamp := by
  refine ⟨by decide, c3CexUser, ?_, c3CexTask, ?_,
          { timestamp := 5, question := "q1", highlights := "h1" },
          [{ timestamp := 9, question := "q2", highlights := "h2" }], ?_,
          { timestamp := 9, question := "q2", highlights := "h2" },
          List.mem_singleton.mpr rfl, by decide⟩
  · rw [run_c3CexOps_eval]
    exact List.mem_singleton.mpr rfl
  · simp [c3CexUser]
  · simp [c3CexTask, mergeReport, c3CexPatch]

end AgentStudio
